import Mathlib

/-!
Shallow embedding of `src/tic_tac_toe_database/init_schema.js`, a MongoDB
initialization script that creates the collections `users`, `games` and
`leaderboards` with `$jsonSchema` validators and secondary indexes.

BSON documents are modelled as association lists of field name / value
pairs, validators as a data type covering exactly the JSON-schema keywords
the script uses, and the database as an association list of collections.
-/

namespace TicTacToeDB

/-- The BSON type tags that appear in the script's `bsonType` fields. -/
inductive BsonTy where
  | object | string | array | objectId | date | null | int | double
deriving DecidableEq

/-- BSON values, restricted to the types the validators mention.
`int` is the 32-bit integer BSON type, `double` the floating BSON type
(its numeric value modelled as a rational), `objectId` an opaque id. -/
inductive BsonValue where
  | str (s : String)
  | intV (n : Int)
  | double (q : Rat)
  | objectId (n : Nat)
  | date (t : Int)
  | null
  | array (l : List BsonValue)
  | doc (fields : List (String × BsonValue))

/-- The BSON type of a value. -/
def typeOf : BsonValue → BsonTy
  | .str _ => .string
  | .intV _ => .int
  | .double _ => .double
  | .objectId _ => .objectId
  | .date _ => .date
  | .null => .null
  | .array _ => .array
  | .doc _ => .object

mutual

/-- Structural boolean equality on BSON values. -/
def beqV : BsonValue → BsonValue → Bool
  | .str a, .str b => a == b
  | .intV a, .intV b => a == b
  | .double a, .double b => a == b
  | .objectId a, .objectId b => a == b
  | .date a, .date b => a == b
  | .null, .null => true
  | .array a, .array b => beqL a b
  | .doc a, .doc b => beqF a b
  | _, _ => false

/-- Structural boolean equality on lists of BSON values. -/
def beqL : List BsonValue → List BsonValue → Bool
  | [], [] => true
  | a :: as, b :: bs => beqV a b && beqL as bs
  | _, _ => false

/-- Structural boolean equality on field lists of BSON documents. -/
def beqF : List (String × BsonValue) → List (String × BsonValue) → Bool
  | [], [] => true
  | (n1, v1) :: as, (n2, v2) :: bs => n1 == n2 && beqV v1 v2 && beqF as bs
  | _, _ => false

end


/-!
A small anchored-regex model covering the constructs of the one pattern the
script uses, the email pattern on line 23 of the source:
`pattern: "^.+@.+\\..+$"`, i.e. the regular expression `^.+@.+\..+$`.
`lit c` matches the single character `c` (the escaped `\.` and the plain `@`),
`plusAny` matches `.+` (one or more characters), and `seq` is concatenation.
The `^`/`$` anchors are represented by matching against the whole string.
-/

/-- Regular-expression shapes used by the validator patterns. -/
inductive Rx where
  | lit (c : Char)
  | plusAny
  | seq (r1 r2 : Rx)
deriving DecidableEq

/-- All decompositions of a list into a pair of lists whose
concatenation is the original list. -/
def splits : List Char → List (List Char × List Char)
  | [] => [([], [])]
  | c :: rest => ([], c :: rest) :: (splits rest).map (fun p => (c :: p.1, p.2))

/-- Whole-string matching of a regular expression. -/
def rxMatch : Rx → List Char → Bool
  | .lit c, l => l == [c]
  | .plusAny, l => !l.isEmpty
  | .seq r1 r2, l => (splits l).any (fun p => rxMatch r1 p.1 && rxMatch r2 p.2)

/-- The email pattern `^.+@.+\..+$` from the users validator. -/
def emailRx : Rx :=
  .seq .plusAny (.seq (.lit '@') (.seq .plusAny (.seq (.lit '.') .plusAny)))


/-!
`$jsonSchema` validators, as data.  The fields cover exactly the keywords
the three validators in the script use: `bsonType` (a single type or a list
of alternatives, modelled uniformly as a list), `required`, `properties`,
`pattern`, `minItems`, `maxItems`, `items`, `enum` (string enumerations
only, as in the script) and the numeric `minimum` / `maximum` bounds.
-/

/-- A `$jsonSchema` validator node. -/
inductive Schema where
  | mk (bsonTypes : List BsonTy)
       (required : List String)
       (properties : List (String × Schema))
       (pattern : Option Rx)
       (minItems : Option Nat)
       (maxItems : Option Nat)
       (items : Option Schema)
       (stringEnum : Option (List String))
       (minimum : Option Rat)
       (maximum : Option Rat)

/-- The `bsonType` alternatives of a schema node. -/
def Schema.bsonTypes : Schema → List BsonTy
  | .mk tys _ _ _ _ _ _ _ _ _ => tys

/-- The required field names of a schema node. -/
def Schema.required : Schema → List String
  | .mk _ req _ _ _ _ _ _ _ _ => req

/-- The property list of a schema node. -/
def Schema.properties : Schema → List (String × Schema)
  | .mk _ _ props _ _ _ _ _ _ _ => props

/-- The pattern of a schema node. -/
def Schema.pattern : Schema → Option Rx
  | .mk _ _ _ pat _ _ _ _ _ _ => pat

/-- The `minimum` bound of a schema node. -/
def Schema.minimum : Schema → Option Rat
  | .mk _ _ _ _ _ _ _ _ mn _ => mn

/-- The `maximum` bound of a schema node. -/
def Schema.maximum : Schema → Option Rat
  | .mk _ _ _ _ _ _ _ _ _ mx => mx

/-- The names of the properties a schema declares. -/
def schemaPropNames (s : Schema) : List String :=
  s.properties.map Prod.fst

mutual

/-- Structural boolean equality on schemas. -/
def beqSchema : Schema → Schema → Bool
  | .mk t1 r1 p1 pa1 mi1 ma1 it1 en1 mn1 mx1,
    .mk t2 r2 p2 pa2 mi2 ma2 it2 en2 mn2 mx2 =>
    t1 == t2 && r1 == r2 && beqPropsS p1 p2 && pa1 == pa2 && mi1 == mi2 &&
    ma1 == ma2 && beqOptS it1 it2 && en1 == en2 && mn1 == mn2 && mx1 == mx2

/-- Structural boolean equality on property lists. -/
def beqPropsS : List (String × Schema) → List (String × Schema) → Bool
  | [], [] => true
  | (n1, s1) :: t1, (n2, s2) :: t2 => n1 == n2 && beqSchema s1 s2 && beqPropsS t1 t2
  | _, _ => false

/-- Structural boolean equality on optional schemas. -/
def beqOptS : Option Schema → Option Schema → Bool
  | none, none => true
  | some a, some b => beqSchema a b
  | _, _ => false

end

/-- First value bound to a field name in a document's field list. -/
def lookupField : List (String × BsonValue) → String → Option BsonValue
  | [], _ => none
  | (n, v) :: rest, name => if n = name then some v else lookupField rest name

/-- `bsonType` keyword: the value's type is among the allowed types. -/
def typeOk (tys : List BsonTy) (v : BsonValue) : Bool :=
  tys.contains (typeOf v)

/-- `required` keyword: every listed field is present (objects only). -/
def requiredOk (req : List String) (v : BsonValue) : Bool :=
  match v with
  | .doc fields => req.all (fun name => (lookupField fields name).isSome)
  | _ => true

/-- `pattern` keyword: string values must match the regular expression. -/
def patternOk (pat : Option Rx) (v : BsonValue) : Bool :=
  match pat, v with
  | some r, .str s => rxMatch r s.data
  | _, _ => true

/-- `enum` keyword (string enumerations): the value is one of the listed
strings. -/
def enumOk (en : Option (List String)) (v : BsonValue) : Bool :=
  match en with
  | none => true
  | some l =>
    match v with
    | .str s => l.contains s
    | _ => false

/-- Numeric view of a value, for `minimum` / `maximum`. -/
def numVal : BsonValue → Option Rat
  | .intV n => some (n : Rat)
  | .double q => some q
  | _ => none

/-- `minimum` / `maximum` keywords: bounds on numeric values. -/
def boundOk (mn mx : Option Rat) (v : BsonValue) : Bool :=
  match numVal v with
  | none => true
  | some q =>
    (match mn with | none => true | some m => decide (m ≤ q)) &&
    (match mx with | none => true | some m => decide (q ≤ m))

/-- `minItems` / `maxItems` keywords: bounds on an array's length. -/
def lenOk (mi mx : Option Nat) (n : Nat) : Bool :=
  (match mi with | none => true | some m => decide (m ≤ n)) &&
  (match mx with | none => true | some m => decide (n ≤ m))

mutual

/-- Whether a BSON value conforms to a `$jsonSchema` validator.  Each
keyword constrains only the values it applies to, as in JSON schema:
`properties` and `required` constrain documents, `pattern` strings,
`minItems` / `maxItems` / `items` arrays, `minimum` / `maximum` numbers. -/
def matchesSchema : Schema → BsonValue → Bool
  | .mk tys req props pat mnI mxI it en mn mx, v =>
    typeOk tys v &&
    requiredOk req v &&
    (match v with
     | .doc fields => propsOk props fields
     | _ => true) &&
    patternOk pat v &&
    (match v with
     | .array l =>
       lenOk mnI mxI l.length &&
       (match it with
        | none => true
        | some isch => itemsOk isch l)
     | _ => true) &&
    enumOk en v &&
    boundOk mn mx v

/-- `properties` keyword: each declared property that is present in the
field list conforms to its sub-schema. -/
def propsOk : List (String × Schema) → List (String × BsonValue) → Bool
  | [], _ => true
  | (name, sub) :: rest, fields =>
    (match lookupField fields name with
     | none => true
     | some fv => matchesSchema sub fv) &&
    propsOk rest fields

/-- `items` keyword: every array element conforms to the item schema. -/
def itemsOk : Schema → List BsonValue → Bool
  | _, [] => true
  | isch, v :: rest => matchesSchema isch v && itemsOk isch rest

end

/-- A schema node with only a `bsonType` constraint (the script's leaf
nodes; `description` fields carry no validation semantics). -/
def leaf (tys : List BsonTy) : Schema :=
  .mk tys [] [] none none none none none none none

/-- The `email` property (source line 23): a string matching the email
pattern. -/
def emailSchema : Schema :=
  .mk [.string] [] [] (some emailRx) none none none none none none

/-- The `users` validator (source lines 17-37). -/
def usersSchema : Schema :=
  .mk [.object]
      ["username", "email", "password_hash", "created_at"]
      [("username", leaf [.string]),
       ("email", emailSchema),
       ("password_hash", leaf [.string]),
       ("profile", .mk [.object] []
          [("avatar", leaf [.string, .null])]
          none none none none none none none),
       ("created_at", leaf [.date]),
       ("last_login", leaf [.date, .null])]
      none none none none none none none

/-- The `row` / `col` properties of a move's position (source lines
67-68): an int in [0, 2]. -/
def rowColSchema : Schema :=
  .mk [.int] [] [] none none none none none (some 0) (some 2)

/-- The `position` property of a move (source lines 63-70). -/
def positionSchema : Schema :=
  .mk [.object] ["row", "col"]
      [("row", rowColSchema), ("col", rowColSchema)]
      none none none none none none none

/-- The schema of one element of `moves` (source lines 58-73). -/
def moveSchema : Schema :=
  .mk [.object]
      ["player", "position", "timestamp"]
      [("player", leaf [.objectId]),
       ("position", positionSchema),
       ("timestamp", leaf [.date])]
      none none none none none none none

/-- The `players` property (source lines 49-54): an array of exactly two
object ids. -/
def playersSchema : Schema :=
  .mk [.array] [] [] none (some 2) (some 2) (some (leaf [.objectId])) none none none

/-- The `moves` property (source lines 55-74): an array of move records. -/
def movesSchema : Schema :=
  .mk [.array] [] [] none none none (some moveSchema) none none none

/-- The `games` validator (source lines 44-85). -/
def gamesSchema : Schema :=
  .mk [.object]
      ["players", "moves", "status", "created_at"]
      [("players", playersSchema),
       ("moves", movesSchema),
       ("status", .mk [.string] [] [] none none none none
          (some ["ongoing", "win", "draw", "abandoned"]) none none),
       ("winner", leaf [.objectId, .null]),
       ("created_at", leaf [.date]),
       ("completed_at", leaf [.date, .null])]
      none none none none none none none

/-- The `win_rate` property (source line 102): a double in [0, 1]. -/
def winRateSchema : Schema :=
  .mk [.double] [] [] none none none none none (some 0) (some 1)

/-- The `leaderboards` validator (source lines 92-106). -/
def leaderboardsSchema : Schema :=
  .mk [.object]
      ["user_id", "games_played", "games_won", "games_drawn", "games_lost",
       "win_rate", "ranking"]
      [("user_id", leaf [.objectId]),
       ("games_played", .mk [.int] [] [] none none none none none (some 0) none),
       ("games_won", .mk [.int] [] [] none none none none none (some 0) none),
       ("games_drawn", .mk [.int] [] [] none none none none none (some 0) none),
       ("games_lost", .mk [.int] [] [] none none none none none (some 0) none),
       ("win_rate", winRateSchema),
       ("ranking", .mk [.int] [] [] none none none none none (some 1) none)]
      none none none none none none none

/-!
The database.  A collection stores its validator, its secondary indexes
and its documents in insertion order; the database maps collection names
to collections.  The operation semantics follow the contract the spec
states for the underlying MongoDB server (§4.1, §5): collection and index
creation are "create if not exists" — re-creating with identical options
is a no-op, re-creating with conflicting options is a driver error — and
inserts enforce the validator and the unique indexes.
-/

/-- A secondary index: its key pattern (field names with sort direction)
and whether it is unique. -/
structure IndexSpec where
  keys : List (String × Int)
  unique : Bool
deriving DecidableEq

/-- A stored collection. -/
structure Coll where
  validator : Schema
  indexes : List IndexSpec
  docs : List (List (String × BsonValue))

/-- The database: collection name to collection. -/
abbrev DbState : Type := List (String × Coll)

/-- Database-driver errors the modelled operations can raise. -/
inductive DbErr where
  | namespaceExists
  | indexOptionsConflict
  | documentValidationFailure
  | duplicateKey
deriving DecidableEq

/-- The collection bound to a name, if any. -/
def lookupColl : DbState → String → Option Coll
  | [], _ => none
  | (n, c) :: rest, name => if n = name then some c else lookupColl rest name

/-- Replace the collection bound to a name. -/
def setColl : DbState → String → Coll → DbState
  | [], name, c => [(name, c)]
  | (n, c0) :: rest, name, c =>
    if n = name then (name, c) :: rest else (n, c0) :: setColl rest name c

/-- The validator of a collection created implicitly (no constraint). -/
def emptySchema : Schema := .mk [] [] [] none none none none none none none

/-- `db.createCollection(name, validator)`: creates the collection when
absent; an existing collection with an identical validator is left as is,
one with a different validator is a driver error. -/
def createCollection (name : String) (vd : Schema) (s : DbState) :
    Except DbErr DbState :=
  match lookupColl s name with
  | none => .ok (s ++ [(name, ⟨vd, [], []⟩)])
  | some c => if beqSchema c.validator vd then .ok s else .error .namespaceExists

/-- `db.collection(name).createIndex(keys, options)`: creates the index
when absent (creating the collection itself first when missing); an
identical existing index is a no-op, an existing index with the same keys
but different options is a driver error. -/
def createIndex (name : String) (idx : IndexSpec) (s : DbState) :
    Except DbErr DbState :=
  match lookupColl s name with
  | none => .ok (s ++ [(name, ⟨emptySchema, [idx], []⟩)])
  | some c =>
    match c.indexes.find? (fun i => i.keys == idx.keys) with
    | none => .ok (setColl s name { c with indexes := c.indexes ++ [idx] })
    | some i => if i.unique == idx.unique then .ok s else .error .indexOptionsConflict

/-- The value a document contributes to an index key for one field:
missing fields index as `null`. -/
def getFieldOrNull (d : List (String × BsonValue)) (f : String) : BsonValue :=
  (lookupField d f).getD .null

/-- The key a document contributes to an index. -/
def indexKey (idx : IndexSpec) (d : List (String × BsonValue)) : List BsonValue :=
  idx.keys.map (fun kv => getFieldOrNull d kv.1)

/-- Document insert: the document must conform to the collection's
validator, and no unique index key may collide with a stored document. -/
def insertDoc (cname : String) (d : List (String × BsonValue)) (s : DbState) :
    Except DbErr DbState :=
  match lookupColl s cname with
  | none => .ok (s ++ [(cname, ⟨emptySchema, [], [d]⟩)])
  | some c =>
    if matchesSchema c.validator (.doc d) then
      if c.indexes.any (fun idx => idx.unique &&
          c.docs.any (fun d0 => beqL (indexKey idx d0) (indexKey idx d))) then
        .error .duplicateKey
      else
        .ok (setColl s cname { c with docs := c.docs ++ [d] })
    else .error .documentValidationFailure

/-- One step of the initialization sequence: a database operation that
either transforms the state or fails with a driver error. -/
def Step : Type := DbState → Except DbErr DbState

/-- The nine awaited database operations of `initializeSchema`, in source
order (lines 16-109): create `users` and its two unique indexes, create
`games` and its two non-unique indexes, create `leaderboards` and its two
unique indexes. -/
def initSteps : List Step :=
  [createCollection "users" usersSchema,
   createIndex "users" ⟨[("username", 1)], true⟩,
   createIndex "users" ⟨[("email", 1)], true⟩,
   createCollection "games" gamesSchema,
   createIndex "games" ⟨[("players", 1)], false⟩,
   createIndex "games" ⟨[("status", 1), ("created_at", -1)], false⟩,
   createCollection "leaderboards" leaderboardsSchema,
   createIndex "leaderboards" ⟨[("ranking", 1)], true⟩,
   createIndex "leaderboards" ⟨[("user_id", 1)], true⟩]

/-- Run steps in sequence.  The first failing step stops the run: the
state already reached is kept (no rollback) and that step's error is
returned as is (no retries, no local recovery). -/
def runSteps : List Step → DbState → DbState × Option DbErr
  | [], s => (s, none)
  | st :: rest, s =>
    match st s with
    | .ok s' => runSteps rest s'
    | .error e => (s, some e)

/-- `initializeSchema(db)` (source lines 14-112): the nine awaited
database calls in order.  The closing `print` on success only emits the
completion log line and touches no database state. -/
def initializeSchema (s : DbState) : DbState × Option DbErr :=
  runSteps initSteps s

/-- The database state after a successful run against an empty database. -/
def postInit : DbState := (initializeSchema []).1

/-- Evaluation of the script file (source lines 114-117): the top-level
guard invokes `initializeSchema` on the shell's database only when the
global `db` is defined; otherwise nothing is invoked and no database
operation runs. -/
def evalScriptFile (dbDefined : Bool) (world : DbState) : DbState × Option DbErr :=
  if dbDefined then initializeSchema world else (world, none)

/-- States reachable from `s0` by successful document inserts. -/
inductive ReachableFrom (s0 : DbState) : DbState → Prop
  | refl : ReachableFrom s0 s0
  | insert (cname : String) (d : List (String × BsonValue)) (s s' : DbState) :
      ReachableFrom s0 s → insertDoc cname d s = .ok s' → ReachableFrom s0 s'

/-- Every unique index in the database, as collection name / key-pattern
pairs, in collection and creation order. -/
def uniqueIndexList (s : DbState) : List (String × List (String × Int)) :=
  s.flatMap (fun nc => (nc.2.indexes.filter (fun i => i.unique)).map (fun i => (nc.1, i.keys)))

/-!
Concrete documents used as witnesses, and the spec's description of the
email shape.
-/

/-- A user document, conforming except possibly for its email string. -/
def userDocWithEmail (s : String) : List (String × BsonValue) :=
  [("username", .str "alice"), ("email", .str s),
   ("password_hash", .str "h"), ("created_at", .date 0)]

/-- A conforming user document. -/
def validUserDoc : List (String × BsonValue) := userDocWithEmail "a@b.c"

/-- A conforming game document with one in-range move. -/
def validGameDoc : List (String × BsonValue) :=
  [("players", .array [.objectId 1, .objectId 2]),
   ("moves", .array [.doc [("player", .objectId 1),
      ("position", .doc [("row", .intV 1), ("col", .intV 2)]),
      ("timestamp", .date 1)]]),
   ("status", .str "ongoing"), ("created_at", .date 0)]

/-- A leaderboard document whose `win_rate` is the integer `1`, all other
fields conforming. -/
def intWinRateDoc : List (String × BsonValue) :=
  [("user_id", .objectId 1), ("games_played", .intV 1), ("games_won", .intV 1),
   ("games_drawn", .intV 0), ("games_lost", .intV 0),
   ("win_rate", .intV 1), ("ranking", .intV 1)]

/-- The shape the spec describes for emails: at least one character, an
`@`, then a domain containing a `.` with at least one character on each
side. -/
def emailShape (s : String) : Prop :=
  ∃ a b c : List Char, a ≠ [] ∧ b ≠ [] ∧ c ≠ [] ∧
    s.data = a ++ '@' :: (b ++ '.' :: c)

/-- The invariant the unique indexes maintain: within each collection the
stored documents are pairwise distinct on every unique index's key. -/
def uniqueKeysInv (s : DbState) : Prop :=
  ∀ cname c, lookupColl s cname = some c →
    ∀ idx ∈ c.indexes, idx.unique = true →
      c.docs.Pairwise (fun d1 d2 => indexKey idx d1 ≠ indexKey idx d2)

/-- The `users` collection exactly as the initializer creates it. -/
def usersCollInit : Coll :=
  ⟨usersSchema, [⟨[("username", 1)], true⟩, ⟨[("email", 1)], true⟩], []⟩

/-!
Lemmas.  First the reflexivity of the boolean equalities and the
characterisation of the email pattern, then lemmas about validator
components.
-/

mutual

theorem beqV_refl : ∀ a : BsonValue, beqV a a = true
  | .str a => by simp [beqV]
  | .intV a => by simp [beqV]
  | .double a => by simp [beqV]
  | .objectId a => by simp [beqV]
  | .date a => by simp [beqV]
  | .null => rfl
  | .array l => by simpa [beqV] using beqL_refl l
  | .doc f => by simpa [beqV] using beqF_refl f

theorem beqL_refl : ∀ l : List BsonValue, beqL l l = true
  | [] => rfl
  | a :: as => by simp [beqL, beqV_refl a, beqL_refl as]

theorem beqF_refl : ∀ f : List (String × BsonValue), beqF f f = true
  | [] => rfl
  | (n, v) :: as => by simp [beqF, beqV_refl v, beqF_refl as]

end

/-- Unequal values are told apart by the boolean equality. -/
theorem beqL_ne {a b : List BsonValue} (h : beqL a b = false) : a ≠ b := by
  intro he
  rw [he, beqL_refl] at h
  exact Bool.noConfusion h

theorem mem_splits {l : List Char} {a b : List Char} :
    (a, b) ∈ splits l ↔ a ++ b = l := by
  induction l generalizing a b with
  | nil => simp [splits, List.append_eq_nil]
  | cons c rest ih =>
    simp only [splits, List.mem_cons, List.mem_map, Prod.mk.injEq]
    constructor
    · rintro (⟨rfl, rfl⟩ | ⟨p, hp, rfl, rfl⟩)
      · simp
      · simpa using congrArg (c :: ·) (ih.mp (by exact hp))
    · intro h
      cases a with
      | nil => left; simpa using h
      | cons x xs =>
        right
        simp only [List.cons_append, List.cons.injEq] at h
        exact ⟨(xs, b), ih.mpr h.2, by simp [h.1], rfl⟩

theorem rxMatch_seq {r1 r2 : Rx} {l : List Char} :
    rxMatch (.seq r1 r2) l = true ↔
      ∃ a b, a ++ b = l ∧ rxMatch r1 a = true ∧ rxMatch r2 b = true := by
  simp only [rxMatch, List.any_eq_true, Prod.exists]
  constructor
  · rintro ⟨a, b, hmem, h⟩
    exact ⟨a, b, mem_splits.mp hmem, by simpa using h⟩
  · rintro ⟨a, b, hab, h1, h2⟩
    exact ⟨a, b, mem_splits.mpr hab, by simp [h1, h2]⟩

theorem rxMatch_plusAny {l : List Char} :
    rxMatch .plusAny l = true ↔ l ≠ [] := by
  simp [rxMatch]

theorem rxMatch_lit {c : Char} {l : List Char} :
    rxMatch (.lit c) l = true ↔ l = [c] := by
  simp [rxMatch]

/-- Characterisation of the email pattern: a string of characters matches
`^.+@.+\..+$` exactly when it splits as a nonempty part, an `@`, a nonempty
part, a `.`, and a final nonempty part. -/
theorem emailRx_iff {l : List Char} :
    rxMatch emailRx l = true ↔
      ∃ a b c : List Char, a ≠ [] ∧ b ≠ [] ∧ c ≠ [] ∧
        l = a ++ '@' :: (b ++ '.' :: c) := by
  unfold emailRx
  rw [rxMatch_seq]
  constructor
  · rintro ⟨a, rest, hsplit, ha, hrest⟩
    rw [rxMatch_seq] at hrest
    obtain ⟨at1, rest2, hs2, hat, hrest2⟩ := hrest
    rw [rxMatch_lit] at hat
    rw [rxMatch_seq] at hrest2
    obtain ⟨b, rest3, hs3, hb, hrest3⟩ := hrest2
    rw [rxMatch_seq] at hrest3
    obtain ⟨dot, c, hs4, hdot, hc⟩ := hrest3
    rw [rxMatch_lit] at hdot
    rw [rxMatch_plusAny] at ha hb hc
    refine ⟨a, b, c, ha, hb, hc, ?_⟩
    subst hat hdot
    rw [← hsplit, ← hs2, ← hs3, ← hs4]
    simp
  · rintro ⟨a, b, c, ha, hb, hc, rfl⟩
    refine ⟨a, '@' :: (b ++ '.' :: c), rfl, rxMatch_plusAny.mpr ha, ?_⟩
    rw [rxMatch_seq]
    refine ⟨['@'], b ++ '.' :: c, rfl, rxMatch_lit.mpr rfl, ?_⟩
    rw [rxMatch_seq]
    refine ⟨b, '.' :: c, rfl, rxMatch_plusAny.mpr hb, ?_⟩
    rw [rxMatch_seq]
    exact ⟨['.'], c, rfl, rxMatch_lit.mpr rfl, rxMatch_plusAny.mpr hc⟩

/-!
Helper lemmas about field lookup and validator components.
-/

theorem lookupField_append (d e : List (String × BsonValue)) (name : String) :
    lookupField (d ++ e) name =
      match lookupField d name with
      | some v => some v
      | none => lookupField e name := by
  induction d with
  | nil => simp [lookupField]
  | cons p rest ih =>
    obtain ⟨n, v⟩ := p
    by_cases hn : n = name <;> simp [lookupField, hn, ih]

theorem lookupField_eq_none_of_keys (e : List (String × BsonValue)) (name : String)
    (h : ∀ p ∈ e, p.1 ≠ name) : lookupField e name = none := by
  induction e with
  | nil => rfl
  | cons p rest ih =>
    obtain ⟨n, v⟩ := p
    have hn : n ≠ name := h (n, v) (by simp)
    simp only [lookupField, if_neg hn]
    exact ih (fun q hq => h q (by simp [hq]))

theorem typeOf_eq_object {v : BsonValue} (h : typeOf v = .object) :
    ∃ f, v = .doc f := by
  cases v <;> simp_all [typeOf]

theorem typeOf_eq_array {v : BsonValue} (h : typeOf v = .array) :
    ∃ l, v = .array l := by
  cases v <;> simp_all [typeOf]

theorem typeOf_eq_int {v : BsonValue} (h : typeOf v = .int) :
    ∃ n, v = .intV n := by
  cases v <;> simp_all [typeOf]

theorem typeOf_eq_objectId {v : BsonValue} (h : typeOf v = .objectId) :
    ∃ n, v = .objectId n := by
  cases v <;> simp_all [typeOf]

theorem typeOk_singleton {t : BsonTy} {v : BsonValue} (h : typeOk [t] v = true) :
    typeOf v = t := by
  simpa [typeOk, List.contains] using h

theorem itemsOk_mem {isch : Schema} {l : List BsonValue} (h : itemsOk isch l = true)
    {v : BsonValue} (hv : v ∈ l) : matchesSchema isch v = true := by
  induction l with
  | nil => cases hv
  | cons a t ih =>
    rw [itemsOk, Bool.and_eq_true] at h
    cases hv with
    | head => exact h.1
    | tail _ hv => exact ih h.2 hv

theorem propsOk_append {props : List (String × Schema)}
    {d extras : List (String × BsonValue)}
    (hnone : ∀ p ∈ props, lookupField extras p.1 = none)
    (h : propsOk props d = true) : propsOk props (d ++ extras) = true := by
  induction props with
  | nil => simp [propsOk]
  | cons q rest ih =>
    obtain ⟨name, sub⟩ := q
    rw [propsOk, Bool.and_eq_true] at h ⊢
    refine ⟨?_, ih (fun p hp => hnone p (by simp [hp])) h.2⟩
    have hx : lookupField extras name = none := hnone (name, sub) (by simp)
    rw [lookupField_append]
    cases hd : lookupField d name with
    | none => simp [hx]
    | some fv => rw [hd] at h; simpa using h.1

/-- Adding top-level fields whose names the schema does not declare never
invalidates a conforming document. -/
theorem matchesSchema_append_extras (V : Schema) (d extras : List (String × BsonValue))
    (hk : ∀ p ∈ extras, p.1 ∉ schemaPropNames V)
    (h : matchesSchema V (.doc d) = true) :
    matchesSchema V (.doc (d ++ extras)) = true := by
  obtain ⟨tys, req, props, pat, mnI, mxI, it, en, mn, mx⟩ := V
  have hnone : ∀ p ∈ props, lookupField extras p.1 = none := by
    intro p hp
    refine lookupField_eq_none_of_keys _ _ (fun q hq => ?_)
    intro hqe
    exact hk q hq (by
      simp only [schemaPropNames, Schema.properties, List.mem_map]
      exact ⟨p, hp, hqe.symm⟩)
  simp only [matchesSchema] at h ⊢
  simp only [Bool.and_eq_true] at h ⊢
  obtain ⟨⟨⟨⟨⟨⟨hty, hreq⟩, hprops⟩, hpat⟩, harr⟩, hen⟩, hbound⟩ := h
  refine ⟨⟨⟨⟨⟨⟨?_, ?_⟩, ?_⟩, ?_⟩, ?_⟩, ?_⟩, ?_⟩
  · simpa [typeOk, typeOf] using hty
  · rw [requiredOk, List.all_eq_true] at hreq ⊢
    intro name hname
    have hr := hreq name hname
    rw [lookupField_append]
    cases hd : lookupField d name with
    | none => rw [hd] at hr; simp at hr
    | some fv => simp
  · exact propsOk_append hnone hprops
  · cases pat <;> simp [patternOk]
  · trivial
  · cases en with
    | none => simp [enumOk]
    | some l => simp [enumOk] at hen
  · simp [boundOk, numVal]

theorem matchesSchema_typeOk {V : Schema} {v : BsonValue}
    (h : matchesSchema V v = true) : typeOk V.bsonTypes v = true := by
  obtain ⟨tys, req, props, pat, mnI, mxI, it, en, mn, mx⟩ := V
  simp only [matchesSchema.eq_def, Bool.and_eq_true] at h
  exact h.1.1.1.1.1.1

theorem matchesSchema_boundOk {V : Schema} {v : BsonValue}
    (h : matchesSchema V v = true) : boundOk V.minimum V.maximum v = true := by
  obtain ⟨tys, req, props, pat, mnI, mxI, it, en, mn, mx⟩ := V
  simp only [matchesSchema.eq_def, Bool.and_eq_true] at h
  exact h.2

theorem matchesSchema_patternOk {V : Schema} {v : BsonValue}
    (h : matchesSchema V v = true) : patternOk V.pattern v = true := by
  obtain ⟨tys, req, props, pat, mnI, mxI, it, en, mn, mx⟩ := V
  simp only [matchesSchema.eq_def, Bool.and_eq_true] at h
  exact h.1.1.1.2

theorem matchesSchema_doc_props {V : Schema} {d : List (String × BsonValue)}
    (h : matchesSchema V (.doc d) = true) : propsOk V.properties d = true := by
  obtain ⟨tys, req, props, pat, mnI, mxI, it, en, mn, mx⟩ := V
  simp only [matchesSchema, Bool.and_eq_true] at h
  exact h.1.1.1.1.2

theorem matchesSchema_field_present {V : Schema} {d : List (String × BsonValue)}
    (h : matchesSchema V (.doc d) = true) (name : String)
    (hmem : name ∈ V.required) : ∃ v, lookupField d name = some v := by
  obtain ⟨tys, req, props, pat, mnI, mxI, it, en, mn, mx⟩ := V
  simp only [matchesSchema, Bool.and_eq_true] at h
  have hr := h.1.1.1.1.1.2
  simp only [requiredOk, List.all_eq_true] at hr
  have hp := hr name hmem
  exact Option.isSome_iff_exists.mp (by simpa using hp)

theorem propsOk_lookup {props : List (String × Schema)}
    {fields : List (String × BsonValue)} (h : propsOk props fields = true)
    {name : String} {sub : Schema} (hmem : (name, sub) ∈ props)
    {v : BsonValue} (hv : lookupField fields name = some v) :
    matchesSchema sub v = true := by
  induction props with
  | nil => cases hmem
  | cons q rest ih =>
    obtain ⟨n1, s1⟩ := q
    rw [propsOk, Bool.and_eq_true] at h
    cases hmem with
    | head =>
      have h1 := h.1
      rw [hv] at h1
      simpa using h1
    | tail _ hmem => exact ih h.2 hmem

theorem runSteps_append_of_ok {l1 : List Step} {s s' : DbState}
    (h : runSteps l1 s = (s', none)) (l2 : List Step) :
    runSteps (l1 ++ l2) s = runSteps l2 s' := by
  induction l1 generalizing s with
  | nil =>
    simp only [runSteps, Prod.mk.injEq] at h
    rw [List.nil_append, h.1]
  | cons st rest ih =>
    rw [List.cons_append, runSteps]
    rw [runSteps] at h
    cases hst : st s with
    | ok s1 => rw [hst] at h; exact ih h
    | error e => rw [hst] at h; simp at h

/-- Claim C1: running `initializeSchema` twice in sequence against an
initially empty database produces no error on the second run, and the
second run leaves the collections, their validators and their indexes
exactly as the first run left them. -/
theorem initializeSchema_idempotent_on_empty :
    initializeSchema [] = (postInit, none) ∧
    initializeSchema postInit = (postInit, none) :=
  ⟨rfl, rfl⟩

/-- Claim C2: if the steps before step `k` of the initialization sequence
succeed, turning the database state `s` into `s'`, and step `k` itself
fails with error `e`, then `initializeSchema` ends in exactly the state
`s'` the earlier steps produced (their effects keep, no later step runs)
and surfaces `e` itself to the caller (no local handling). -/
theorem initializeSchema_fail_stops (s s' : DbState) (k : Nat)
    (hk : k < initSteps.length) (e : DbErr)
    (h1 : runSteps (initSteps.take k) s = (s', none))
    (h2 : initSteps[k] s' = .error e) :
    initializeSchema s = (s', some e) := by
  have hsplit : initSteps = initSteps.take k ++ (initSteps[k] :: initSteps.drop (k + 1)) := by
    conv_lhs => rw [← List.take_append_drop k initSteps]
    rw [List.drop_eq_getElem_cons hk]
  rw [initializeSchema, hsplit, runSteps_append_of_ok h1, runSteps, h2]

/-- Witness for C2: a state where `users` already exists with a different
validator makes the very first step fail, leaving the state untouched and
surfacing the driver error. -/
theorem initializeSchema_fail_stops_witness :
    initializeSchema [("users", ⟨emptySchema, [], []⟩)] =
      ([("users", ⟨emptySchema, [], []⟩)], some .namespaceExists) :=
  initializeSchema_fail_stops _ _ 0 (by decide) .namespaceExists rfl rfl

/-- Claim C5: initialization creates on the `games` collection exactly one
non-unique index on `players` and one non-unique compound index on
(`status` ascending, `created_at` descending), and no unique index on
`games`. -/
theorem games_indexes_exact :
    (lookupColl postInit "games").map Coll.indexes =
      some [⟨[("players", 1)], false⟩, ⟨[("status", 1), ("created_at", -1)], false⟩] ∧
    ∀ p ∈ uniqueIndexList postInit, p.1 ≠ "games" :=
  ⟨rfl, by decide⟩

/-- Witness for C5: the users.username unique index is one of the unique
indexes, and it is not on `games`. -/
theorem games_indexes_exact_witness :
    ("users", [("username", (1 : Int))]) ∈ uniqueIndexList postInit ∧
    ("users", [("username", (1 : Int))]).1 ≠ "games" :=
  ⟨by decide, games_indexes_exact.2 ("users", [("username", (1 : Int))]) (by decide)⟩

/-- Claim C10: when the global `db` is undefined, evaluating the script
file performs no database operation and leaves every database state
unchanged; when `db` is defined, the top-level guard invokes
`initializeSchema` on it. -/
theorem script_noop_without_db :
    (∀ world : DbState, evalScriptFile false world = (world, none)) ∧
    (∀ world : DbState, evalScriptFile true world = initializeSchema world) :=
  ⟨fun _ => rfl, fun _ => rfl⟩

theorem lookupColl_append_right (s : DbState) (p : String × Coll) (x : String) :
    lookupColl (s ++ [p]) x =
      match lookupColl s x with
      | some c => some c
      | none => if p.1 = x then some p.2 else none := by
  induction s with
  | nil => simp [lookupColl]
  | cons q rest ih =>
    obtain ⟨n, c⟩ := q
    by_cases hn : n = x <;> simp [lookupColl, hn, ih]

theorem lookupColl_setColl (s : DbState) (name : String) (c : Coll) (x : String) :
    lookupColl (setColl s name c) x =
      if name = x then some c else lookupColl s x := by
  induction s with
  | nil => simp [setColl, lookupColl]
  | cons q rest ih =>
    obtain ⟨n, c0⟩ := q
    by_cases hn : n = name
    · subst hn
      by_cases hx : n = x <;> simp [setColl, lookupColl, hx]
    · by_cases hx : n = x
      · subst hx
        have hnm : name ≠ n := fun hh => hn hh.symm
        simp [setColl, lookupColl, hn, hnm]
      · simp [setColl, lookupColl, hn, hx, ih]

/-- The state after the initializer runs against an empty database,
written out. -/
theorem postInit_eq :
    postInit =
      [("users", usersCollInit),
       ("games", ⟨gamesSchema,
          [⟨[("players", 1)], false⟩, ⟨[("status", 1), ("created_at", -1)], false⟩],
          []⟩),
       ("leaderboards", ⟨leaderboardsSchema,
          [⟨[("ranking", 1)], true⟩, ⟨[("user_id", 1)], true⟩],
          []⟩)] := rfl

theorem uniqueKeysInv_postInit : uniqueKeysInv postInit := by
  intro cname c hc idx hidx hu
  rw [postInit_eq] at hc
  simp only [lookupColl] at hc
  split at hc
  · cases hc; simp [usersCollInit]
  · split at hc
    · cases hc; simp
    · split at hc
      · cases hc; simp
      · cases hc

theorem insertDoc_preserves_inv {cname : String} {d : List (String × BsonValue)}
    {s s' : DbState} (h : insertDoc cname d s = .ok s')
    (hinv : uniqueKeysInv s) : uniqueKeysInv s' := by
  cases hc : lookupColl s cname with
  | none =>
    simp only [insertDoc, hc] at h
    obtain rfl : s ++ [(cname, ⟨emptySchema, [], [d]⟩)] = s' := by
      simpa using h
    intro x c hx idx hidx hu
    rw [lookupColl_append_right] at hx
    cases hlx : lookupColl s x with
    | some c0 =>
      simp only [hlx] at hx
      obtain rfl : c0 = c := by simpa using hx
      exact hinv _ _ hlx idx hidx hu
    | none =>
      simp only [hlx] at hx
      by_cases hce : cname = x
      · rw [if_pos hce] at hx
        obtain rfl : (⟨emptySchema, [], [d]⟩ : Coll) = c := by simpa using hx
        simp at hidx
      · rw [if_neg hce] at hx
        cases hx
  | some c0 =>
    simp only [insertDoc, hc] at h
    by_cases hv : matchesSchema c0.validator (.doc d) = true
    · rw [if_pos hv] at h
      by_cases hdup : (c0.indexes.any (fun idx => idx.unique &&
          c0.docs.any (fun d0 => beqL (indexKey idx d0) (indexKey idx d)))) = true
      · rw [if_pos hdup] at h
        cases h
      · rw [if_neg hdup] at h
        obtain rfl : setColl s cname { c0 with docs := c0.docs ++ [d] } = s' := by
          simpa using h
        intro x c hx idx hidx hu
        rw [lookupColl_setColl] at hx
        by_cases hce : cname = x
        · rw [if_pos hce] at hx
          obtain rfl : ({ c0 with docs := c0.docs ++ [d] } : Coll) = c := by
            simpa using hx
          have hidx0 : idx ∈ c0.indexes := hidx
          have hdocs : (({ c0 with docs := c0.docs ++ [d] } : Coll).docs) =
              c0.docs ++ [d] := rfl
          rw [hdocs, List.pairwise_append]
          refine ⟨hinv x c0 (hce ▸ hc) idx hidx0 hu, by simp, ?_⟩
          intro d1 hd1 d2 hd2
          have hd2' : d2 = d := by simpa using hd2
          rw [hd2']
          have hfalse : (c0.indexes.any (fun i => i.unique &&
              c0.docs.any (fun d0 => beqL (indexKey i d0) (indexKey i d)))) = false :=
            Bool.eq_false_iff.mpr hdup
          have hA : (idx.unique &&
              c0.docs.any (fun d0 => beqL (indexKey idx d0) (indexKey idx d))) = false :=
            Bool.eq_false_iff.mpr (List.any_eq_false.mp hfalse idx hidx0)
          rw [hu, Bool.true_and] at hA
          have hB : beqL (indexKey idx d1) (indexKey idx d) = false :=
            Bool.eq_false_iff.mpr (List.any_eq_false.mp hA d1 hd1)
          exact beqL_ne hB
        · rw [if_neg hce] at hx
          exact hinv x c hx idx hidx hu
    · rw [if_neg hv] at h
      cases h

theorem insertDoc_lookup_mono {cname : String} {d : List (String × BsonValue)}
    {s s' : DbState} (h : insertDoc cname d s = .ok s')
    {x : String} {c0 : Coll} (hx : lookupColl s x = some c0) :
    ∃ c, lookupColl s' x = some c ∧ c.validator = c0.validator ∧
      c.indexes = c0.indexes := by
  cases hc : lookupColl s cname with
  | none =>
    simp only [insertDoc, hc] at h
    obtain rfl : s ++ [(cname, ⟨emptySchema, [], [d]⟩)] = s' := by
      simpa using h
    refine ⟨c0, ?_, rfl, rfl⟩
    simp only [lookupColl_append_right, hx]
  | some c1 =>
    simp only [insertDoc, hc] at h
    by_cases hv : matchesSchema c1.validator (.doc d) = true
    · rw [if_pos hv] at h
      by_cases hdup : (c1.indexes.any (fun idx => idx.unique &&
          c1.docs.any (fun d0 => beqL (indexKey idx d0) (indexKey idx d)))) = true
      · rw [if_pos hdup] at h
        cases h
      · rw [if_neg hdup] at h
        obtain rfl : setColl s cname { c1 with docs := c1.docs ++ [d] } = s' := by
          simpa using h
        by_cases hce : cname = x
        · subst hce
          rw [hx] at hc
          cases hc
          exact ⟨{ c0 with docs := c0.docs ++ [d] },
            by rw [lookupColl_setColl, if_pos rfl], rfl, rfl⟩
        · exact ⟨c0, by rw [lookupColl_setColl, if_neg hce]; exact hx, rfl, rfl⟩
    · rw [if_neg hv] at h
      cases h

theorem reachable_uniqueKeysInv {s0 s : DbState} (h : ReachableFrom s0 s)
    (h0 : uniqueKeysInv s0) : uniqueKeysInv s := by
  induction h with
  | refl => exact h0
  | insert cname d s1 s2 _ hins ih => exact insertDoc_preserves_inv hins ih

theorem reachable_lookup {s0 s : DbState} (h : ReachableFrom s0 s)
    (x : String) (c0 : Coll) (hx : lookupColl s0 x = some c0) :
    ∃ c, lookupColl s x = some c ∧ c.validator = c0.validator ∧
      c.indexes = c0.indexes := by
  induction h with
  | refl => exact ⟨c0, hx, rfl, rfl⟩
  | insert cname d s1 s2 _ hins ih =>
    obtain ⟨c, hcm, hvm, him⟩ := ih
    obtain ⟨c', hc', hv', hi'⟩ := insertDoc_lookup_mono hins hcm
    exact ⟨c', hc', hv'.trans hvm, hi'.trans him⟩

theorem pairwise_field_of_indexKey {docs : List (List (String × BsonValue))}
    {f : String} {dir : Int} {u : Bool}
    (h : docs.Pairwise (fun d1 d2 =>
      indexKey ⟨[(f, dir)], u⟩ d1 ≠ indexKey ⟨[(f, dir)], u⟩ d2)) :
    docs.Pairwise (fun d1 d2 => getFieldOrNull d1 f ≠ getFieldOrNull d2 f) := by
  refine h.imp ?_
  intro d1 d2 hne heq
  exact hne (by simp [indexKey, heq])

/-- Claim C4: initialization creates exactly four unique indexes — on
users.username, users.email, leaderboards.ranking and
leaderboards.user_id — and consequently, in every state reachable from
the initialized database by successful inserts, distinct stored `users`
documents differ on `username` and on `email`, and distinct stored
`leaderboards` documents differ on `ranking` and on `user_id` (an insert
sharing the value would have failed). -/
theorem init_unique_indexes :
    uniqueIndexList postInit =
      [("users", [("username", 1)]), ("users", [("email", 1)]),
       ("leaderboards", [("ranking", 1)]), ("leaderboards", [("user_id", 1)])] ∧
    ∀ s, ReachableFrom postInit s →
      (∀ c, lookupColl s "users" = some c →
        c.docs.Pairwise (fun d1 d2 =>
          getFieldOrNull d1 "username" ≠ getFieldOrNull d2 "username") ∧
        c.docs.Pairwise (fun d1 d2 =>
          getFieldOrNull d1 "email" ≠ getFieldOrNull d2 "email")) ∧
      (∀ c, lookupColl s "leaderboards" = some c →
        c.docs.Pairwise (fun d1 d2 =>
          getFieldOrNull d1 "ranking" ≠ getFieldOrNull d2 "ranking") ∧
        c.docs.Pairwise (fun d1 d2 =>
          getFieldOrNull d1 "user_id" ≠ getFieldOrNull d2 "user_id")) := by
  refine ⟨rfl, ?_⟩
  intro s hreach
  have hinv := reachable_uniqueKeysInv hreach uniqueKeysInv_postInit
  constructor
  · intro c hc
    obtain ⟨c', hc', hv', hi'⟩ := reachable_lookup hreach
      "users" usersCollInit rfl
    rw [hc] at hc'
    cases hc'
    have hiu : c.indexes = [⟨[("username", 1)], true⟩, ⟨[("email", 1)], true⟩] := hi'
    constructor
    · exact pairwise_field_of_indexKey
        (hinv "users" c hc ⟨[("username", 1)], true⟩ (by rw [hiu]; simp) rfl)
    · exact pairwise_field_of_indexKey
        (hinv "users" c hc ⟨[("email", 1)], true⟩ (by rw [hiu]; simp) rfl)
  · intro c hc
    obtain ⟨c', hc', hv', hi'⟩ := reachable_lookup hreach
      "leaderboards"
      ⟨leaderboardsSchema,
        [⟨[("ranking", 1)], true⟩, ⟨[("user_id", 1)], true⟩], []⟩ rfl
    rw [hc] at hc'
    cases hc'
    have hiu : c.indexes = [⟨[("ranking", 1)], true⟩, ⟨[("user_id", 1)], true⟩] := hi'
    constructor
    · exact pairwise_field_of_indexKey
        (hinv "leaderboards" c hc ⟨[("ranking", 1)], true⟩ (by rw [hiu]; simp) rfl)
    · exact pairwise_field_of_indexKey
        (hinv "leaderboards" c hc ⟨[("user_id", 1)], true⟩ (by rw [hiu]; simp) rfl)

/-- Witness for C4 at the freshly initialized state itself. -/
theorem init_unique_indexes_witness :
    usersCollInit.docs.Pairwise (fun d1 d2 =>
      getFieldOrNull d1 "username" ≠ getFieldOrNull d2 "username") ∧
    usersCollInit.docs.Pairwise (fun d1 d2 =>
      getFieldOrNull d1 "email" ≠ getFieldOrNull d2 "email") :=
  (init_unique_indexes.2 postInit ReachableFrom.refl).1 usersCollInit rfl

/-- Claim C3: the users validator constrains `email` to the simple
local@domain.tld shape: the email string of any document the validator
accepts has the shape (so an email without it is rejected), and every
email of the shape passes the email constraint, shown within an otherwise
conforming document. -/
theorem users_email_pattern :
    (∀ (d : List (String × BsonValue)) (s : String),
        lookupField d "email" = some (.str s) →
        matchesSchema usersSchema (.doc d) = true →
        emailShape s) ∧
    (∀ s : String, emailShape s →
        matchesSchema usersSchema (.doc (userDocWithEmail s)) = true) := by
  constructor
  · intro d s hlook h
    have hp : propsOk usersSchema.properties d = true := matchesSchema_doc_props h
    have hmem : ("email", emailSchema) ∈ usersSchema.properties := by
      simp [usersSchema, Schema.properties]
    have hemail : matchesSchema emailSchema (.str s) = true :=
      propsOk_lookup hp hmem hlook
    have hpat := matchesSchema_patternOk hemail
    simp only [emailSchema, Schema.pattern, patternOk] at hpat
    exact emailRx_iff.mp hpat
  · intro s hs
    have hm : rxMatch emailRx s.data = true := emailRx_iff.mpr hs
    simp [userDocWithEmail, usersSchema, emailSchema, leaf, matchesSchema, propsOk,
      typeOk, typeOf, requiredOk, patternOk, enumOk, boundOk, numVal, lookupField, hm]

/-- Witness for C3 at the conforming email a@b.c. -/
theorem users_email_pattern_witness :
    matchesSchema usersSchema (.doc (userDocWithEmail "a@b.c")) = true :=
  users_email_pattern.2 "a@b.c"
    ⟨['a'], ['b'], ['c'], by decide, by decide, by decide, by decide⟩

/-- Claim C6: the games validator accepts the `players` field only as an
array of exactly two object ids: in any document it accepts, `players` is
present, is an array of length exactly two, and every element is an
object id (so fewer or more than two players is rejected). -/
theorem games_players_two (d : List (String × BsonValue))
    (h : matchesSchema gamesSchema (.doc d) = true) :
    ∃ l, lookupField d "players" = some (.array l) ∧ l.length = 2 ∧
      ∀ v ∈ l, ∃ n, v = .objectId n := by
  obtain ⟨pv, hpv⟩ := matchesSchema_field_present h
    "players" (by simp [gamesSchema, Schema.required])
  have hm : matchesSchema playersSchema pv = true :=
    propsOk_lookup (matchesSchema_doc_props h)
      (by simp [gamesSchema, Schema.properties]) hpv
  have hty := matchesSchema_typeOk hm
  simp only [playersSchema, Schema.bsonTypes] at hty
  obtain ⟨l, rfl⟩ := typeOf_eq_array (typeOk_singleton hty)
  simp only [playersSchema, matchesSchema, Bool.and_eq_true] at hm
  have hlen := hm.1.1.2.1
  have hitems := hm.1.1.2.2
  simp only [lenOk, Bool.and_eq_true, decide_eq_true_eq] at hlen
  refine ⟨l, hpv, by omega, ?_⟩
  intro v hv
  have hvs := itemsOk_mem hitems hv
  have hvt := matchesSchema_typeOk hvs
  simp only [leaf, Schema.bsonTypes] at hvt
  exact typeOf_eq_objectId (typeOk_singleton hvt)

/-- Witness for C6 on a conforming game document. -/
theorem games_players_two_witness :
    ∃ l, lookupField validGameDoc "players" = some (.array l) ∧ l.length = 2 ∧
      ∀ v ∈ l, ∃ n, v = .objectId n :=
  games_players_two validGameDoc (by
    simp [validGameDoc, gamesSchema, playersSchema, movesSchema, moveSchema,
      positionSchema, rowColSchema, leaf, matchesSchema, propsOk, itemsOk, typeOk,
      typeOf, requiredOk, patternOk, enumOk, boundOk, numVal, lenOk, lookupField])

/-- Claim C7: the games validator constrains every move's position to
integer `row` and `col` within [0, 2]: in any document it accepts, every
element of `moves` is a record whose position carries integers
`0 ≤ row ≤ 2` and `0 ≤ col ≤ 2` (so `row = 3` or a non-integer is
rejected). -/
theorem games_move_position_bounds (d : List (String × BsonValue))
    (ms : List BsonValue) (m : BsonValue)
    (h : matchesSchema gamesSchema (.doc d) = true)
    (hms : lookupField d "moves" = some (.array ms)) (hm : m ∈ ms) :
    ∃ mf pf r c, m = .doc mf ∧
      lookupField mf "position" = some (.doc pf) ∧
      lookupField pf "row" = some (.intV r) ∧ 0 ≤ r ∧ r ≤ 2 ∧
      lookupField pf "col" = some (.intV c) ∧ 0 ≤ c ∧ c ≤ 2 := by
  have hmv : matchesSchema movesSchema (.array ms) = true :=
    propsOk_lookup (matchesSchema_doc_props h)
      (by simp [gamesSchema, Schema.properties]) hms
  simp only [movesSchema, matchesSchema, Bool.and_eq_true] at hmv
  have hmove := itemsOk_mem hmv.1.1.2.2 hm
  have hmt := matchesSchema_typeOk hmove
  simp only [moveSchema, Schema.bsonTypes] at hmt
  obtain ⟨mf, rfl⟩ := typeOf_eq_object (typeOk_singleton hmt)
  obtain ⟨pv, hpv⟩ := matchesSchema_field_present hmove
    "position" (by simp [moveSchema, Schema.required])
  have hpos : matchesSchema positionSchema pv = true :=
    propsOk_lookup (matchesSchema_doc_props hmove)
      (by simp [moveSchema, Schema.properties]) hpv
  have hpt := matchesSchema_typeOk hpos
  simp only [positionSchema, Schema.bsonTypes] at hpt
  obtain ⟨pf, rfl⟩ := typeOf_eq_object (typeOk_singleton hpt)
  obtain ⟨rv, hrv⟩ := matchesSchema_field_present hpos
    "row" (by simp [positionSchema, Schema.required])
  obtain ⟨cv, hcv⟩ := matchesSchema_field_present hpos
    "col" (by simp [positionSchema, Schema.required])
  have hrow : matchesSchema rowColSchema rv = true :=
    propsOk_lookup (matchesSchema_doc_props hpos)
      (by simp [positionSchema, Schema.properties]) hrv
  have hcol : matchesSchema rowColSchema cv = true :=
    propsOk_lookup (matchesSchema_doc_props hpos)
      (by simp [positionSchema, Schema.properties]) hcv
  have hrt := matchesSchema_typeOk hrow
  simp only [rowColSchema, Schema.bsonTypes] at hrt
  obtain ⟨r, rfl⟩ := typeOf_eq_int (typeOk_singleton hrt)
  have hct := matchesSchema_typeOk hcol
  simp only [rowColSchema, Schema.bsonTypes] at hct
  obtain ⟨c, rfl⟩ := typeOf_eq_int (typeOk_singleton hct)
  have hrb := matchesSchema_boundOk hrow
  have hcb := matchesSchema_boundOk hcol
  simp only [rowColSchema, Schema.minimum, Schema.maximum, boundOk, numVal,
    Bool.and_eq_true, decide_eq_true_eq] at hrb hcb
  refine ⟨mf, pf, r, c, rfl, hpv, hrv, ?_, ?_, hcv, ?_, ?_⟩
  · exact_mod_cast hrb.1
  · exact_mod_cast hrb.2
  · exact_mod_cast hcb.1
  · exact_mod_cast hcb.2

/-- Witness for C7 on a conforming game document with one move. -/
theorem games_move_position_bounds_witness :
    ∃ mf pf r c,
      (BsonValue.doc [("player", .objectId 1),
        ("position", .doc [("row", .intV 1), ("col", .intV 2)]),
        ("timestamp", .date 1)]) = .doc mf ∧
      lookupField mf "position" = some (.doc pf) ∧
      lookupField pf "row" = some (.intV r) ∧ 0 ≤ r ∧ r ≤ 2 ∧
      lookupField pf "col" = some (.intV c) ∧ 0 ≤ c ∧ c ≤ 2 :=
  games_move_position_bounds validGameDoc _ _
    (by simp [validGameDoc, gamesSchema, playersSchema, movesSchema, moveSchema,
      positionSchema, rowColSchema, leaf, matchesSchema, propsOk, itemsOk, typeOk,
      typeOf, requiredOk, patternOk, enumOk, boundOk, numVal, lenOk, lookupField])
    rfl (by simp)

/-- Claim C8: the leaderboards validator requires `win_rate` to be of the
BSON double type specifically: a document whose `win_rate` is an integer
value is rejected even when the value lies within [0, 1]. -/
theorem leaderboards_win_rate_double (d : List (String × BsonValue)) (n : Int)
    (hlook : lookupField d "win_rate" = some (.intV n))
    (_h0 : 0 ≤ n) (_h1 : n ≤ 1) :
    matchesSchema leaderboardsSchema (.doc d) = false := by
  cases hM : matchesSchema leaderboardsSchema (.doc d) with
  | false => rfl
  | true =>
    exfalso
    have hw : matchesSchema winRateSchema (.intV n) = true :=
      propsOk_lookup (matchesSchema_doc_props hM)
        (by simp [leaderboardsSchema, Schema.properties]) hlook
    have hty := matchesSchema_typeOk hw
    simp [winRateSchema, Schema.bsonTypes, typeOk, typeOf] at hty

/-- Witness for C8: the integer win rate 1 lies in [0, 1] and is still
rejected. -/
theorem leaderboards_win_rate_double_witness :
    matchesSchema leaderboardsSchema (.doc intWinRateDoc) = false :=
  leaderboards_win_rate_double intWinRateDoc 1 rfl (by decide) (by decide)

/-- Claim C9: none of the three validators restricts unknown fields: a
document one of them accepts stays accepted when arbitrary additional
top-level fields not named in that schema are appended. -/
theorem validators_allow_unknown_fields :
    ∀ V ∈ [usersSchema, gamesSchema, leaderboardsSchema],
      ∀ (d extras : List (String × BsonValue)),
        (∀ p ∈ extras, p.1 ∉ schemaPropNames V) →
        matchesSchema V (.doc d) = true →
        matchesSchema V (.doc (d ++ extras)) = true := by
  intro V _ d extras hk h
  exact matchesSchema_append_extras V d extras hk h

/-- Witness for C9: a conforming user document stays accepted with an
extra field appended. -/
theorem validators_allow_unknown_fields_witness :
    matchesSchema usersSchema
      (.doc (validUserDoc ++ [("favorite_color", .str "blue")])) = true :=
  validators_allow_unknown_fields usersSchema (by simp) validUserDoc
    [("favorite_color", .str "blue")]
    (by simp [schemaPropNames, usersSchema, emailSchema, leaf, Schema.properties])
    (by
      have hm : rxMatch emailRx "a@b.c".data = true := rfl
      simp [validUserDoc, userDocWithEmail, usersSchema, emailSchema, leaf,
        matchesSchema, propsOk, typeOk, typeOf, requiredOk, patternOk, enumOk,
        boundOk, numVal, lookupField, hm])

end TicTacToeDB
